import Mathlib

/-
  Verification of the Circuit-Playground minigame corpus
  (CP_MiniGames_1.ino, the concatenated cp_minigames_3 sketch, and the
  fidget-spinner sketch in src/unnamed/part_000).

  Each definition is a shallow embedding of one function or loop of the
  source; machine integers are modelled as Nat/Int with explicit % 2^16
  where the C code casts to uint16_t, and float arithmetic is modelled
  over the reals.
-/

namespace CP

/-! ## Capacitive touch (Simon-4, CP_MiniGames_1.ino lines 119-122, 670-697) -/

/-- Tuning constant `CAP_DELTA_MIN` (CP_MiniGames_1.ino line 121). -/
def CAP_DELTA_MIN : Nat := 120

/-- Tuning constant `CAP_RELEASE_HYST` (CP_MiniGames_1.ino line 122). -/
def CAP_RELEASE_HYST : Nat := 60

/-- The press threshold `(uint16_t)(capBase[idx] + margin)` used by
`simonPadPressed` (line 673): a pad counts as pressed when the raw reading
is strictly above `baseline + CAP_DELTA_MIN` (uint16 arithmetic). -/
def capPressThreshold (base : Nat) : Nat := (base + CAP_DELTA_MIN) % 65536

/-- The release threshold `(uint16_t)(capBase[i] + CAP_DELTA_MIN - CAP_RELEASE_HYST)`
used by the released-wait loop of `simonWaitPadEdge` (line 682): a pad still
counts as high (not yet released) while the raw reading is strictly above it. -/
def capReleaseThreshold (base : Nat) : Nat :=
  (base + CAP_DELTA_MIN - CAP_RELEASE_HYST) % 65536

/-- `simonPadPressed` (CP_MiniGames_1.ino lines 670-674): reading strictly
above `baseline + CAP_DELTA_MIN`. -/
def simonPadPressed (base v : Nat) : Bool := decide (capPressThreshold base < v)

/-- The per-reading comparison of the release loop of `simonWaitPadEdge`
(CP_MiniGames_1.ino line 682): reading strictly above
`baseline + CAP_DELTA_MIN - CAP_RELEASE_HYST`. -/
def simonPadHigh (base v : Nat) : Bool := decide (capReleaseThreshold base < v)

/-- One reading of the Schmitt-trigger press automaton realised by
`simonPadPressed` / `simonWaitPadEdge`: while not pressed, a reading becomes a
press only above the press threshold (line 673); once pressed, the channel
stays pressed while readings remain above the release threshold (line 682). -/
def capStep (base : Nat) (pressed : Bool) (v : Nat) : Bool :=
  if pressed then simonPadHigh base v else simonPadPressed base v

/-- Folding `capStep` over a sequence of raw readings. -/
def capRun (base : Nat) (pressed : Bool) (vs : List Nat) : Bool :=
  vs.foldl (capStep base) pressed

/-! ## Whack-a-Mole reaction window (CP_MiniGames_1.ino lines 429-433, 497, 502) -/

/-- Tuning constant `START_WINDOW_MS` (line 429). -/
def START_WINDOW_MS : Nat := 900

/-- Tuning constant `MIN_WINDOW_MS` (line 430). -/
def MIN_WINDOW_MS : Nat := 250

/-- The success update (line 497):
`window = (uint16_t)max((int)MIN_WINDOW_MS, (int)((uint16_t)(window * DECAY)))`
with `DECAY = 0.93f`; the float product is truncated by the uint16 cast. -/
def wamSuccess (w : Nat) : Nat := max MIN_WINDOW_MS ((w * 93 / 100) % 65536)

/-- The failure update (line 502):
`window = (uint16_t)min((int)START_WINDOW_MS, (int)((uint16_t)(window / DECAY)))`. -/
def wamFailure (w : Nat) : Nat := min START_WINDOW_MS ((w * 100 / 93) % 65536)

/-- Folding an arbitrary success/failure history over the reaction window
(`true` = mole hit, `false` = miss). -/
def wamRun (events : List Bool) (w : Nat) : Nat :=
  events.foldl (fun x e => if e then wamSuccess x else wamFailure x) w

/-! ## A+B long-press reset (CP_MiniGames_1.ino lines 150-165, part_000 lines 70-82) -/

/-- Tuning constant `AB_RESET_MS` (CP_MiniGames_1.ino line 117, part_000 line 39). -/
def AB_RESET_MS : Nat := 1500

/-- The polling loop of `abResetHeld`: at poll `n` (time `t0 + 10*n`, the code
sleeps 10 ms between polls) the loop condition re-reads both buttons; while
both are held it returns `true` as soon as `millis() - start >= ms`, and it
returns `false` the first time either button reads released. -/
def abLoop (left right : Nat → Bool) (t0 ms n : Nat) : Bool :=
  if left (t0 + 10 * n) && right (t0 + 10 * n) then
    if _h : ms ≤ 10 * n then true
    else abLoop left right t0 ms (n + 1)
  else false
termination_by ms - 10 * n
decreasing_by omega

/-- `abResetHeld` (CP_MiniGames_1.ino lines 150-165): returns `false`
immediately unless both buttons read pressed, then runs the hold loop with
`start = millis()`. `left`/`right` give the button states as functions of the
millisecond clock. -/
def abResetHeld (left right : Nat → Bool) (t0 ms : Nat) : Bool :=
  if left t0 && right t0 then abLoop left right t0 ms 0 else false

/-! ## Tug-of-War track position (CP_MiniGames_1.ino lines 1501-1509, 1534-1535) -/

/-- Tuning constant `TUG_TRACK_LEN` (line 1079). -/
def TUG_TRACK_LEN : Int := 9

/-- A pull by the left player (`pos--` then clamp at `-TUG_TRACK_LEN`,
lines 1502 and 1534). -/
def tugPullLeft (pos : Int) : Int :=
  if pos - 1 < -TUG_TRACK_LEN then -TUG_TRACK_LEN else pos - 1

/-- A pull by the right player or a CPU push (`pos++` then clamp at
`TUG_TRACK_LEN`, lines 1509 and 1535). -/
def tugPullRight (pos : Int) : Int :=
  if pos + 1 > TUG_TRACK_LEN then TUG_TRACK_LEN else pos + 1

/-- Folding an arbitrary sequence of pulls (`true` = left pull, `false` =
right/CPU pull) over the track position. -/
def tugRun (moves : List Bool) (pos : Int) : Int :=
  moves.foldl (fun p m => if m then tugPullLeft p else tugPullRight p) pos

/-! ## Spinner physics (src/unnamed/part_000 lines 42-47, 182-280) -/

/-- Physics timestep `DT_S` (part_000 line 42). -/
noncomputable def DT_S : ℝ := 0.025

/-- Per-step omega decay `DRAG` (part_000 line 43). -/
noncomputable def DRAG : ℝ := 0.985

/-- Measured-angular-velocity injection gain `KICK_GAIN` (part_000 line 44). -/
noncomputable def KICK_GAIN : ℝ := 0.55

/-- Flick-impulse threshold `FLICK_THRESH` (part_000 line 45). -/
noncomputable def FLICK_THRESH : ℝ := 7.5

/-- Flick bonus impulse `FLICK_BONUS` (part_000 line 46). -/
noncomputable def FLICK_BONUS : ℝ := 2.2

/-- Omega clamp `OMEGA_MAX` (part_000 line 47). -/
noncomputable def OMEGA_MAX : ℝ := 22.0

/-- The angular-velocity unwrap step of `runSpinnerForever` (part_000 lines
232-235): raw delta `ang - lastAngle`, then subtract 2*pi once if the delta
exceeds pi, then add 2*pi once if it is below -pi. -/
noncomputable def unwrapDelta (ang lastAngle : ℝ) : ℝ :=
  let d := ang - lastAngle
  let d1 := if Real.pi < d then d - 2 * Real.pi else d
  if d1 < -Real.pi then d1 + 2 * Real.pi else d1

/-- The upper wrap loop of `runSpinnerForever` (part_000 line 259):
`while (theta > PI) theta -= 2*PI`. -/
noncomputable def wrapHi (x : ℝ) : ℝ :=
  if _h : Real.pi < x then wrapHi (x - 2 * Real.pi) else x
termination_by (⌈(x - Real.pi) / (2 * Real.pi)⌉).toNat
decreasing_by
  have hpi := Real.pi_pos
  have h2 : (0 : ℝ) < 2 * Real.pi := by linarith
  have key : (x - 2 * Real.pi - Real.pi) / (2 * Real.pi)
      = (x - Real.pi) / (2 * Real.pi) - 1 := by
    field_simp
    ring
  have hpos : 0 < ⌈(x - Real.pi) / (2 * Real.pi)⌉ :=
    Int.ceil_pos.mpr (div_pos (by linarith) h2)
  rw [key, Int.ceil_sub_one]
  omega

/-- The lower wrap loop of `runSpinnerForever` (part_000 line 260):
`while (theta < -PI) theta += 2*PI`. -/
noncomputable def wrapLo (x : ℝ) : ℝ :=
  if _h : x < -Real.pi then wrapLo (x + 2 * Real.pi) else x
termination_by (⌈(-Real.pi - x) / (2 * Real.pi)⌉).toNat
decreasing_by
  have hpi := Real.pi_pos
  have h2 : (0 : ℝ) < 2 * Real.pi := by linarith
  have key : (-Real.pi - (x + 2 * Real.pi)) / (2 * Real.pi)
      = (-Real.pi - x) / (2 * Real.pi) - 1 := by
    field_simp
    ring
  have hpos : 0 < ⌈(-Real.pi - x) / (2 * Real.pi)⌉ :=
    Int.ceil_pos.mpr (div_pos (by linarith) h2)
  rw [key, Int.ceil_sub_one]
  omega

/-- Both wrap loops in source order: first pull `theta` down below `pi`,
then up above `-pi`. -/
noncomputable def wrapAngle (x : ℝ) : ℝ := wrapLo (wrapHi x)

/-- Torque injection `omega += KICK_GAIN * angVel` (part_000 line 240). -/
noncomputable def spinnerOmegaKick (omega angVel : ℝ) : ℝ :=
  omega + KICK_GAIN * angVel

/-- Flick bonus (part_000 lines 241-243): when `fabs(angVel) > FLICK_THRESH`,
add `FLICK_BONUS` signed by the direction of motion. -/
noncomputable def spinnerOmegaFlick (omega angVel : ℝ) : ℝ :=
  if FLICK_THRESH < |angVel| then
    (if 0 < angVel then omega + FLICK_BONUS else omega - FLICK_BONUS)
  else omega

/-- Direction lock (part_000 line 248): with `posOnly` set, a negative omega
bounces as `omega *= -0.6f`. -/
noncomputable def spinnerOmegaLock (omega : ℝ) (posOnly : Bool) : ℝ :=
  if posOnly = true ∧ omega < 0 then omega * (-0.6) else omega

/-- Frame-rate-independent drag `omega *= powf(DRAG, dt / DT_S)`
(part_000 line 251). -/
noncomputable def spinnerOmegaDrag (omega dt : ℝ) : ℝ :=
  omega * DRAG ^ (dt / DT_S)

/-- The omega clamp (part_000 lines 254-255): pull omega back inside
`[-OMEGA_MAX, OMEGA_MAX]`. -/
noncomputable def spinnerOmegaClamp (omega : ℝ) : ℝ :=
  if OMEGA_MAX < omega then OMEGA_MAX
  else if omega < -OMEGA_MAX then -OMEGA_MAX else omega

/-- One physics step of `runSpinnerForever` (part_000 lines 239-260) on state
`(theta, omega)` with measured angular velocity `angVel`, elapsed time `dt`
seconds and direction-lock flag `posOnly`, in source order: torque
injection, flick bonus, optional direction-lock bounce, drag, clamp,
integration `theta += omega*dt`, and the wrap loops.  Returns the new
`(theta, omega)`. -/
noncomputable def spinnerStep (theta omega angVel dt : ℝ) (posOnly : Bool) :
    ℝ × ℝ :=
  let omega5 := spinnerOmegaClamp (spinnerOmegaDrag
    (spinnerOmegaLock (spinnerOmegaFlick (spinnerOmegaKick omega angVel) angVel)
      posOnly) dt)
  (wrapAngle (theta + omega5 * dt), omega5)

/-! ## gExcess (part_000 lines 126-131; CP_MiniGames_1.ino lines 1121-1133) -/

/-- The sum-of-absolutes g-excess `gex` of the fidget-spinner sketch
(part_000 lines 126-131): `fabs(ax)+fabs(ay)+fabs(az) - 9.81f`, with no
deadband. -/
noncomputable def gexSum (ax ay az : ℝ) : ℝ := |ax| + |ay| + |az| - 9.81

/-- The Euclidean-norm g-excess `gex` of the cp_minigames_3 sketch
(CP_MiniGames_1.ino lines 1121-1133): `fabsf(sqrt(ax^2+ay^2+az^2) - 9.81f)`
with a 0.05 deadband zeroing small magnitudes. -/
noncomputable def gexNorm (ax ay az : ℝ) : ℝ :=
  let mag := Real.sqrt (ax * ax + ay * ay + az * az)
  let ge := |mag - 9.81|
  if ge < 0.05 then 0 else ge

/-! ## Shaker / Twinkle energy (CP_MiniGames_1.ino lines 1367-1376; part_000 lines 376-379) -/

/-- One energy tick of `runShakerForever` (CP_MiniGames_1.ino lines
1367-1372): add `ge * SHK_EN_FROM_G` when the g-excess exceeds `SHK_THRESH`,
decay by `SHK_EN_DECAY`, then clamp to `[0, 2]`. -/
noncomputable def shkTick (energy ge : ℝ) : ℝ :=
  let e1 := if 1.2 < ge then energy + ge * 0.045 else energy
  let e2 := e1 * 0.985
  let e3 := if e2 < 0 then 0 else e2
  if 2 < e3 then 2 else e3

/-- One energy tick of `runTwinkleForever` (part_000 lines 376-379): add
`ge * ENERGY_FROM_SHAKE` when the g-excess exceeds 0.4, decay by
`ENERGY_DECAY`, then clamp to `[0, 2]`. -/
noncomputable def twinkleTick (energy ge : ℝ) : ℝ :=
  let e1 := if 0.4 < ge then energy + ge * 0.06 else energy
  let e2 := e1 * 0.985
  let e3 := if e2 < 0 then 0 else e2
  if 2 < e3 then 2 else e3

/-- Truncation toward zero, the semantics of C's `(int)` cast on a float. -/
noncomputable def truncz (x : ℝ) : ℤ := if 0 ≤ x then ⌊x⌋ else ⌈x⌉

/-- The LED fill count of `runShakerForever` (CP_MiniGames_1.ino line 1376):
`(uint8_t)constrain((int)(energy*6.0f + 0.5f), 0, 10)`, where Arduino
`constrain(amt, low, high)` is `amt < low ? low : (amt > high ? high : amt)`. -/
noncomputable def ledFill (e : ℝ) : ℤ :=
  let x := truncz (e * 6 + 0.5)
  if x < 0 then 0 else if x > 10 then 10 else x

/-! ## Helper lemmas -/

theorem wamSuccess_bounds (w : Nat) (h2 : w ≤ START_WINDOW_MS) :
    MIN_WINDOW_MS ≤ wamSuccess w ∧ wamSuccess w ≤ START_WINDOW_MS := by
  unfold wamSuccess MIN_WINDOW_MS START_WINDOW_MS at *
  rw [Nat.mod_eq_of_lt (show w * 93 / 100 < 65536 by omega)]
  omega

theorem wamFailure_bounds (w : Nat) (h1 : MIN_WINDOW_MS ≤ w) (h2 : w ≤ START_WINDOW_MS) :
    MIN_WINDOW_MS ≤ wamFailure w ∧ wamFailure w ≤ START_WINDOW_MS := by
  unfold wamFailure MIN_WINDOW_MS START_WINDOW_MS at *
  rw [Nat.mod_eq_of_lt (show w * 100 / 93 < 65536 by omega)]
  omega

theorem tugPullLeft_bounds (p : Int) (h1 : -TUG_TRACK_LEN ≤ p) (h2 : p ≤ TUG_TRACK_LEN) :
    -TUG_TRACK_LEN ≤ tugPullLeft p ∧ tugPullLeft p ≤ TUG_TRACK_LEN := by
  unfold tugPullLeft TUG_TRACK_LEN at *
  split <;> omega

theorem tugPullRight_bounds (p : Int) (h1 : -TUG_TRACK_LEN ≤ p) (h2 : p ≤ TUG_TRACK_LEN) :
    -TUG_TRACK_LEN ≤ tugPullRight p ∧ tugPullRight p ≤ TUG_TRACK_LEN := by
  unfold tugPullRight TUG_TRACK_LEN at *
  split <;> omega

theorem wrapHi_le (x : ℝ) : wrapHi x ≤ Real.pi := by
  induction x using wrapHi.induct with
  | case1 x h ih => rw [wrapHi, dif_pos h]; exact ih
  | case2 x h => rw [wrapHi, dif_neg h]; exact le_of_not_lt h

theorem wrapLo_ge (x : ℝ) : -Real.pi ≤ wrapLo x := by
  induction x using wrapLo.induct with
  | case1 x h ih => rw [wrapLo, dif_pos h]; exact ih
  | case2 x h => rw [wrapLo, dif_neg h]; exact le_of_not_lt h

theorem wrapLo_le (x : ℝ) : x ≤ Real.pi → wrapLo x ≤ Real.pi := by
  induction x using wrapLo.induct with
  | case1 x h ih =>
    intro _
    rw [wrapLo, dif_pos h]
    have hpi := Real.pi_pos
    exact ih (by linarith)
  | case2 x h =>
    intro hx
    rw [wrapLo, dif_neg h]
    exact hx

theorem spinnerOmegaClamp_abs (y : ℝ) : |spinnerOmegaClamp y| ≤ OMEGA_MAX := by
  unfold spinnerOmegaClamp OMEGA_MAX
  split_ifs with h1 h2
  · rw [abs_le]; constructor <;> norm_num
  · rw [abs_le]; constructor <;> norm_num
  · rw [abs_le]; constructor <;> linarith

theorem drag_pow_lb : (22 : ℝ) / 57.2 < DRAG ^ (Real.pi / 22 / DT_S) := by
  have hpi := Real.pi_pos
  have hpilt : Real.pi < 3.15 := Real.pi_lt_d2
  have hexp : Real.pi / 22 / DT_S ≤ 6 := by
    rw [DT_S, div_div, div_le_iff₀ (by norm_num)]
    linarith
  have h1 : DRAG ^ (6 : ℝ) ≤ DRAG ^ (Real.pi / 22 / DT_S) :=
    Real.rpow_le_rpow_of_exponent_ge (by rw [DRAG]; norm_num)
      (by rw [DRAG]; norm_num) hexp
  have h6 : ((6 : ℕ) : ℝ) = (6 : ℝ) := by norm_num
  have h2 : DRAG ^ (6 : ℝ) = DRAG ^ (6 : ℕ) := by
    rw [← h6, Real.rpow_natCast]
  rw [h2] at h1
  have h3 : (0.3847 : ℝ) < DRAG ^ (6 : ℕ) := by
    rw [DRAG]; norm_num
  calc (22 : ℝ) / 57.2 < 0.3847 := by norm_num
    _ < DRAG ^ (6 : ℕ) := h3
    _ ≤ DRAG ^ (Real.pi / 22 / DT_S) := h1

theorem ledFill_bounds (e : ℝ) : 0 ≤ ledFill e ∧ ledFill e ≤ 10 := by
  simp only [ledFill]
  split_ifs with h1 h2 <;> constructor <;> omega

/-! ## Claim theorems -/

/-- C1: Schmitt-trigger hysteresis of capacitive press detection.  With
baseline 500, `CAP_DELTA_MIN = 120` and `CAP_RELEASE_HYST = 60` the press
threshold is 620 and the release threshold 560; a reading of 650 sets
pressed, a subsequent 580 keeps it pressed, and a subsequent 540 clears it.
In general, once pressed, any reading strictly between the release threshold
and the press threshold keeps the channel pressed. -/
theorem capStep_schmitt :
    capRun 500 false [650] = true ∧
    capRun 500 false [650, 580] = true ∧
    capRun 500 false [650, 580, 540] = false ∧
    (∀ base v, capReleaseThreshold base < v → v ≤ capPressThreshold base →
      capStep base true v = true) := by
  refine ⟨by decide, by decide, by decide, ?_⟩
  intro base v h2 _
  simpa [capStep, simonPadHigh] using h2

/-- Witness for C1: a reading of 580 (between release threshold 560 and press
threshold 620 for baseline 500) keeps the channel pressed. -/
theorem capStep_schmitt_witness : capStep 500 true 580 = true :=
  capStep_schmitt.2.2.2 500 580 (by decide) (by decide)

/-- C3: the whack-a-mole reaction window stays inside
`[MIN_WINDOW_MS, START_WINDOW_MS]` under every sequence of success
(multiplicative decay, clamped below) and failure (inverse growth, clamped
above) updates, starting from any value in that interval. -/
theorem wam_window_bounds (events : List Bool) (w : Nat)
    (h1 : MIN_WINDOW_MS ≤ w) (h2 : w ≤ START_WINDOW_MS) :
    MIN_WINDOW_MS ≤ wamRun events w ∧ wamRun events w ≤ START_WINDOW_MS := by
  induction events generalizing w with
  | nil => exact ⟨h1, h2⟩
  | cons e rest ih =>
    have hstep : MIN_WINDOW_MS ≤ (if e then wamSuccess w else wamFailure w) ∧
        (if e then wamSuccess w else wamFailure w) ≤ START_WINDOW_MS := by
      cases e with
      | true => simpa using wamSuccess_bounds w h2
      | false => simpa using wamFailure_bounds w h1 h2
    simpa [wamRun] using ih _ hstep.1 hstep.2

/-- Witness for C3: an all-success then all-failure burst from the starting
window 900 stays inside the bounds. -/
theorem wam_window_bounds_witness :
    MIN_WINDOW_MS ≤ wamRun [true, true, false, true, false, false] 900 ∧
    wamRun [true, true, false, true, false, false] 900 ≤ START_WINDOW_MS :=
  wam_window_bounds [true, true, false, true, false, false] 900
    (by decide) (by decide)

/-- C7 counterexample: iterating the code's success update ten times from a
900 ms window yields 432 ms, not 434 ms; in particular the result differs
from `max(250, 900*0.93^10)`, since `900*0.93^10 > 435` while the code's
per-step uint16 truncation accumulates to 432. -/
theorem wam_ten_successes_counterexample :
    wamRun [true, true, true, true, true, true, true, true, true, true] 900 = 432 ∧
    (432 : Nat) ≠ 434 ∧ (435 : ℝ) < 900 * 0.93 ^ 10 := by
  refine ⟨by decide, by decide, by norm_num⟩

/-- C7 (amended): starting from a 900 ms window, ten consecutive successes
leave the window at 432 ms — each step truncates `window * 0.93` to an
integer before the next step, so the result sits slightly below the
un-truncated `max(250, 900*0.93^10) ≈ 435.6`. -/
theorem wam_ten_successes :
    wamRun [true, true, true, true, true, true, true, true, true, true] 900 = 432 := by
  decide

/-- C9: in every Tug-of-War round the track position stays within
`[-TUG_TRACK_LEN, TUG_TRACK_LEN]` after every pull: each player or CPU pull
that would move the position past a bound is clamped to that bound. -/
theorem tug_pos_bounds (moves : List Bool) (pos : Int)
    (h1 : -TUG_TRACK_LEN ≤ pos) (h2 : pos ≤ TUG_TRACK_LEN) :
    -TUG_TRACK_LEN ≤ tugRun moves pos ∧ tugRun moves pos ≤ TUG_TRACK_LEN := by
  induction moves generalizing pos with
  | nil => exact ⟨h1, h2⟩
  | cons m rest ih =>
    have hstep : -TUG_TRACK_LEN ≤ (if m then tugPullLeft pos else tugPullRight pos) ∧
        (if m then tugPullLeft pos else tugPullRight pos) ≤ TUG_TRACK_LEN := by
      cases m with
      | true => simpa using tugPullLeft_bounds pos h1 h2
      | false => simpa using tugPullRight_bounds pos h1 h2
    simpa [tugRun] using ih _ hstep.1 hstep.2

/-- Witness for C9: a burst of left pulls from the centre stays on the track. -/
theorem tug_pos_bounds_witness :
    -TUG_TRACK_LEN ≤ tugRun [true, true, true, false, true] 0 ∧
    tugRun [true, true, true, false, true] 0 ≤ TUG_TRACK_LEN :=
  tug_pos_bounds [true, true, true, false, true] 0 (by decide) (by decide)

/-- Characterisation of the hold loop of `abResetHeld`: starting at poll `n`
(with enough fuel `m` and `n` not past the final poll), the loop returns
`true` precisely when both buttons read pressed at every poll from `n` up to
the first poll at which at least `ms` milliseconds have elapsed, which is
poll `(ms + 9) / 10`. -/
theorem abLoop_true_iff (left right : Nat → Bool) (t0 ms : Nat) :
    ∀ m n, ms ≤ 10 * n + m → n ≤ (ms + 9) / 10 →
      (abLoop left right t0 ms n = true ↔
        ∀ k, n ≤ k → k ≤ (ms + 9) / 10 →
          (left (t0 + 10 * k) && right (t0 + 10 * k)) = true) := by
  intro m
  induction m with
  | zero =>
    intro n hm hn
    have hn2 : n = (ms + 9) / 10 := by omega
    rw [abLoop]
    cases hb : (left (t0 + 10 * n) && right (t0 + 10 * n)) with
    | false =>
      simp only [Bool.false_eq_true, if_false]
      constructor
      · intro h; exact absurd h (by simp)
      · intro h
        have := h n (le_refl n) hn
        rw [hb] at this
        exact absurd this (by simp)
    | true =>
      have hms : ms ≤ 10 * n := by omega
      simp only [if_true, dif_pos hms]
      constructor
      · intro _ k hk1 hk2
        have : k = n := by omega
        rw [this, hb]
      · intro _; trivial
  | succ m ih =>
    intro n hm hn
    by_cases hms : ms ≤ 10 * n
    · have hn2 : n = (ms + 9) / 10 := by omega
      rw [abLoop]
      cases hb : (left (t0 + 10 * n) && right (t0 + 10 * n)) with
      | false =>
        simp only [Bool.false_eq_true, if_false]
        constructor
        · intro h; exact absurd h (by simp)
        · intro h
          have := h n (le_refl n) hn
          rw [hb] at this
          exact absurd this (by simp)
      | true =>
        simp only [if_true, dif_pos hms]
        constructor
        · intro _ k hk1 hk2
          have : k = n := by omega
          rw [this, hb]
        · intro _; trivial
    · have hn1 : n + 1 ≤ (ms + 9) / 10 := by omega
      have hm1 : ms ≤ 10 * (n + 1) + m := by omega
      rw [abLoop]
      cases hb : (left (t0 + 10 * n) && right (t0 + 10 * n)) with
      | false =>
        simp only [Bool.false_eq_true, if_false]
        constructor
        · intro h; exact absurd h (by simp)
        · intro h
          have := h n (le_refl n) hn
          rw [hb] at this
          exact absurd this (by simp)
      | true =>
        simp only [if_true, dif_neg hms]
        rw [ih (n + 1) hm1 hn1]
        constructor
        · intro h k hk1 hk2
          rcases Nat.eq_or_lt_of_le hk1 with hk | hk
          · rw [← hk, hb]
          · exact h k hk hk2
        · intro h k hk1 hk2
          exact h k (by omega) hk2

/-- C4: the A+B long-press check returns true exactly when both buttons read
pressed at every 10 ms poll from the call's start until at least
`AB_RESET_MS` milliseconds have elapsed.  Consequently a hold of
`AB_RESET_MS - 1` ms (released before the final poll) never triggers, a hold
through `AB_RESET_MS` ms triggers, and because the loop only inspects button
states from its own start time `t0`, releasing either button then repressing
restarts the timer from zero on the next call. -/
theorem abResetHeld_spec :
    (∀ left right t0 ms, abResetHeld left right t0 ms = true ↔
      ∀ k, k ≤ (ms + 9) / 10 →
        (left (t0 + 10 * k) && right (t0 + 10 * k)) = true) ∧
    (∀ left right t0, (∀ t, t ≤ t0 + AB_RESET_MS → (left t && right t) = true) →
      abResetHeld left right t0 AB_RESET_MS = true) ∧
    (∀ left right t0,
      (∀ t, (left t && right t) = true ↔ t < t0 + (AB_RESET_MS - 1)) →
      abResetHeld left right t0 AB_RESET_MS = false) := by
  have main : ∀ left right t0 ms, abResetHeld left right t0 ms = true ↔
      ∀ k, k ≤ (ms + 9) / 10 →
        (left (t0 + 10 * k) && right (t0 + 10 * k)) = true := by
    intro left right t0 ms
    unfold abResetHeld
    cases hb : (left t0 && right t0) with
    | false =>
      simp only [Bool.false_eq_true, if_false]
      constructor
      · intro h; exact absurd h (by simp)
      · intro h
        have := h 0 (Nat.zero_le _)
        rw [Nat.mul_zero, Nat.add_zero, hb] at this
        exact absurd this (by simp)
    | true =>
      simp only [if_true]
      rw [abLoop_true_iff left right t0 ms ms 0 (by omega) (by omega)]
      constructor
      · intro h k hk; exact h k (Nat.zero_le k) hk
      · intro h k _ hk; exact h k hk
  refine ⟨main, ?_, ?_⟩
  · intro left right t0 h
    rw [main]
    intro k hk
    apply h
    have : k ≤ 150 := by simpa [AB_RESET_MS] using hk
    simp only [AB_RESET_MS]
    omega
  · intro left right t0 h
    cases habs : abResetHeld left right t0 AB_RESET_MS with
    | false => rfl
    | true =>
      rw [main] at habs
      have h150 : (left (t0 + 10 * 150) && right (t0 + 10 * 150)) = true :=
        habs 150 (by simp [AB_RESET_MS])
      have hlt := (h (t0 + 10 * 150)).mp h150
      simp only [AB_RESET_MS] at hlt
      omega

/-- Witness for C4: both buttons held through the whole window triggers, and
a hold that ends just before the deadline (released from 1499 ms on) does
not. -/
theorem abResetHeld_spec_witness :
    abResetHeld (fun _ => true) (fun _ => true) 0 AB_RESET_MS = true ∧
    abResetHeld (fun t => decide (t < 1499)) (fun t => decide (t < 1499)) 0
      AB_RESET_MS = false := by
  constructor
  · exact abResetHeld_spec.2.1 (fun _ => true) (fun _ => true) 0 (fun t _ => rfl)
  · exact abResetHeld_spec.2.2 (fun t => decide (t < 1499))
      (fun t => decide (t < 1499)) 0
      (fun t => by simp [AB_RESET_MS])

/-- C2 counterexample: the unwrap step can output exactly `-pi`, which is
outside the half-open interval `(-pi, pi]` the claim asserts.  Both inputs
(current angle 0, previous angle `pi`) lie in `(-pi, pi]`, yet the unwrapped
delta is `-pi`. -/
theorem unwrapDelta_boundary_counterexample :
    (0 : ℝ) ∈ Set.Ioc (-Real.pi) Real.pi ∧
    Real.pi ∈ Set.Ioc (-Real.pi) Real.pi ∧
    unwrapDelta 0 Real.pi = -Real.pi ∧
    unwrapDelta 0 Real.pi ∉ Set.Ioc (-Real.pi) Real.pi := by
  have hpi := Real.pi_pos
  have hval : unwrapDelta 0 Real.pi = -Real.pi := by
    simp only [unwrapDelta]
    rw [if_neg (show ¬ (Real.pi < 0 - Real.pi) by linarith)]
    rw [if_neg (show ¬ ((0 : ℝ) - Real.pi < -Real.pi) by linarith)]
    ring
  refine ⟨⟨by linarith, by linarith⟩, ⟨by linarith, le_refl _⟩, hval, ?_⟩
  rw [hval]
  simp [Set.mem_Ioc]

/-- C2 (amended): for every pair of tilt angles in `(-pi, pi]`, the unwrap
step (raw delta, then a single add or subtract of `2*pi` when the magnitude
exceeds `pi`) produces a delta in the closed interval `[-pi, pi]`; its
magnitude never exceeds `pi`.  (The boundary value `-pi` itself is
reachable, so the half-open interval of the original claim is off by one
endpoint.) -/
theorem unwrapDelta_bounds (a b : ℝ)
    (ha : a ∈ Set.Ioc (-Real.pi) Real.pi)
    (hb : b ∈ Set.Ioc (-Real.pi) Real.pi) :
    |unwrapDelta a b| ≤ Real.pi := by
  obtain ⟨ha1, ha2⟩ := ha
  obtain ⟨hb1, hb2⟩ := hb
  have hpi := Real.pi_pos
  rw [abs_le]
  simp only [unwrapDelta]
  constructor <;> (split_ifs with h1 h2 <;> linarith)

/-- Witness for C2: the zero angle pair (both in the admissible interval)
yields a delta of magnitude at most `pi`. -/
theorem unwrapDelta_bounds_witness : |unwrapDelta 0 0| ≤ Real.pi :=
  unwrapDelta_bounds 0 0
    ⟨by linarith [Real.pi_pos], by linarith [Real.pi_pos]⟩
    ⟨by linarith [Real.pi_pos], by linarith [Real.pi_pos]⟩

/-- C5 (amended): after every physics step, the returned omega has magnitude
at most `OMEGA_MAX`, theta is integrated from that already-clamped omega
(`theta + omega * dt` fed to the wrap loops), and the resulting theta lies
in the closed interval `[-pi, pi]` — for every state, measured angular
velocity, flick situation and elapsed `dt`.  (The wrap loops can leave theta
exactly at `-pi`, so the half-open interval of the original claim is off by
one endpoint.) -/
theorem spinnerStep_invariants (theta omega angVel dt : ℝ) (posOnly : Bool) :
    |(spinnerStep theta omega angVel dt posOnly).2| ≤ OMEGA_MAX ∧
    (spinnerStep theta omega angVel dt posOnly).1
      = wrapAngle (theta + (spinnerStep theta omega angVel dt posOnly).2 * dt) ∧
    -Real.pi ≤ (spinnerStep theta omega angVel dt posOnly).1 ∧
    (spinnerStep theta omega angVel dt posOnly).1 ≤ Real.pi :=
  ⟨spinnerOmegaClamp_abs _, rfl, wrapLo_ge _, wrapLo_le _ (wrapHi_le _)⟩

/-- C5 counterexample: a step from rest with measured angular velocity
-100 rad/s (a hard flick) and `dt = pi/22` drives omega to the clamp value
-22 and theta to exactly `-pi`, which the wrap loops leave untouched —
outside the half-open interval `(-pi, pi]` the claim asserts. -/
theorem spinnerStep_theta_boundary :
    (spinnerStep 0 0 (-100) (Real.pi / 22) false).1 = -Real.pi ∧
    (spinnerStep 0 0 (-100) (Real.pi / 22) false).1 ∉
      Set.Ioc (-Real.pi) Real.pi := by
  have hpi := Real.pi_pos
  have e1 : spinnerOmegaKick 0 (-100) = -55 := by
    unfold spinnerOmegaKick KICK_GAIN; norm_num
  have e2 : spinnerOmegaFlick (-55) (-100) = -57.2 := by
    unfold spinnerOmegaFlick FLICK_THRESH FLICK_BONUS
    have hc : (7.5 : ℝ) < |(-100 : ℝ)| := by
      rw [abs_of_nonpos (show (-100 : ℝ) ≤ 0 by norm_num)]
      norm_num
    rw [if_pos hc, if_neg (show ¬ ((0 : ℝ) < -100) by norm_num)]
    norm_num
  have e3 : spinnerOmegaLock (-57.2) false = -57.2 := by
    unfold spinnerOmegaLock
    rw [if_neg (show ¬ (false = true ∧ (-57.2 : ℝ) < 0) by simp)]
  have e4 : spinnerOmegaDrag (-57.2) (Real.pi / 22) < -22 := by
    unfold spinnerOmegaDrag
    have hlb := drag_pow_lb
    linarith
  have e5 : spinnerOmegaClamp (spinnerOmegaDrag (-57.2) (Real.pi / 22)) = -22 := by
    unfold spinnerOmegaClamp OMEGA_MAX
    split_ifs with h1 h2
    · linarith
    · norm_num
    · linarith
  have echain : spinnerOmegaClamp (spinnerOmegaDrag
      (spinnerOmegaLock (spinnerOmegaFlick (spinnerOmegaKick 0 (-100)) (-100))
        false) (Real.pi / 22)) = -22 := by
    rw [e1, e2, e3, e5]
  have efst : (spinnerStep 0 0 (-100) (Real.pi / 22) false).1
      = wrapAngle (0 + spinnerOmegaClamp (spinnerOmegaDrag
        (spinnerOmegaLock (spinnerOmegaFlick (spinnerOmegaKick 0 (-100)) (-100))
          false) (Real.pi / 22)) * (Real.pi / 22)) := rfl
  have earg : (0 : ℝ) + (-22) * (Real.pi / 22) = -Real.pi := by
    ring
  have ewrap : wrapAngle (-Real.pi) = -Real.pi := by
    unfold wrapAngle
    rw [wrapHi, dif_neg (show ¬ (Real.pi < -Real.pi) by linarith)]
    rw [wrapLo, dif_neg (show ¬ (-Real.pi < -Real.pi) by linarith)]
  have hval : (spinnerStep 0 0 (-100) (Real.pi / 22) false).1 = -Real.pi := by
    rw [efst, echain, earg, ewrap]
  refine ⟨hval, ?_⟩
  rw [hval]
  simp [Set.mem_Ioc]

/-- C8: one physics step with omega = 10 rad/s, zero measured angular
velocity (hence no flick), and `dt = DT_S = 0.025 s` leaves
omega = 10 * DRAG^(dt/DT_S) = 10 * 0.985 = 9.85 rad/s. -/
theorem spinnerStep_drag_step : (spinnerStep 0 10 0 DT_S false).2 = 9.85 := by
  have e1 : spinnerOmegaKick 10 0 = 10 := by
    unfold spinnerOmegaKick KICK_GAIN; norm_num
  have e2 : spinnerOmegaFlick 10 0 = 10 := by
    unfold spinnerOmegaFlick FLICK_THRESH
    rw [if_neg (show ¬ ((7.5 : ℝ) < |(0 : ℝ)|) by rw [abs_zero]; norm_num)]
  have e3 : spinnerOmegaLock 10 false = 10 := by
    unfold spinnerOmegaLock
    rw [if_neg (show ¬ (false = true ∧ (10 : ℝ) < 0) by simp)]
  have e4 : spinnerOmegaDrag 10 DT_S = 9.85 := by
    unfold spinnerOmegaDrag DRAG
    rw [div_self (by rw [DT_S]; norm_num), Real.rpow_one]
    norm_num
  have e5 : spinnerOmegaClamp 9.85 = 9.85 := by
    unfold spinnerOmegaClamp OMEGA_MAX
    split_ifs with h1 h2
    · linarith
    · linarith
    · rfl
  have esnd : (spinnerStep 0 10 0 DT_S false).2
      = spinnerOmegaClamp (spinnerOmegaDrag
        (spinnerOmegaLock (spinnerOmegaFlick (spinnerOmegaKick 10 0) 0) false)
        DT_S) := rfl
  rw [esnd, e1, e2, e3, e4, e5]

/-- C6 counterexample: the sum-of-absolutes gExcess of the fidget-spinner
sketch applies no deadband at all.  At rest reading (0, 0, 9.84) the excess
magnitude 0.03 is below the claimed 0.05 deadband yet the formula returns
0.03, not 0; and at (0, 0, 9.8) it returns the negative noise value -0.01. -/
theorem gexSum_no_deadband :
    gexSum 0 0 9.84 = 0.03 ∧ gexSum 0 0 9.84 ≠ 0 ∧ gexSum 0 0 9.8 < 0 := by
  unfold gexSum
  norm_num [abs_of_nonneg]

/-- C6 (amended): only the Euclidean-norm gExcess (the `gex` of the
cp_minigames_3 sketch) applies the 0.05 deadband: whenever the magnitude of
the excess of the acceleration norm over 9.81 is below 0.05 it returns
exactly 0, and it is never negative.  The sum-of-absolutes `gex` of the
fidget-spinner sketch applies no deadband and can return negative values. -/
theorem gexNorm_deadband (ax ay az : ℝ) :
    0 ≤ gexNorm ax ay az ∧
    (|Real.sqrt (ax * ax + ay * ay + az * az) - 9.81| < 0.05 →
      gexNorm ax ay az = 0) := by
  simp only [gexNorm]
  constructor
  · split_ifs with h
    · exact le_refl 0
    · exact abs_nonneg _
  · intro h
    rw [if_pos h]

/-- Witness for C6: a resting reading of exactly 1 g along one axis falls
inside the deadband and yields zero. -/
theorem gexNorm_deadband_witness : gexNorm 0 0 9.81 = 0 := by
  apply (gexNorm_deadband 0 0 9.81).2
  have hsq : (0 : ℝ) * 0 + 0 * 0 + 9.81 * 9.81 = 9.81 ^ 2 := by norm_num
  rw [hsq, Real.sqrt_sq (by norm_num : (0 : ℝ) ≤ 9.81)]
  norm_num

/-- C10: the motion-energy accumulator of the Shaker Challenge (and the one
of Twinkle) is clamped to `[0, 2]` after every tick's integration and decay,
whatever the previous energy and g-excess were, and the LED fill count of
the shaker derived from it is always between 0 and 10 inclusive. -/
theorem energy_clamped (energy ge : ℝ) :
    (0 ≤ shkTick energy ge ∧ shkTick energy ge ≤ 2) ∧
    (0 ≤ twinkleTick energy ge ∧ twinkleTick energy ge ≤ 2) ∧
    (0 ≤ ledFill (shkTick energy ge) ∧ ledFill (shkTick energy ge) ≤ 10) := by
  refine ⟨?_, ?_, ledFill_bounds _⟩
  · simp only [shkTick]
    split_ifs <;> constructor <;> linarith
  · simp only [twinkleTick]
    split_ifs <;> constructor <;> linarith

end CP
